import Mathlib

/-!
Verification of the `d6` dice-rendering program (src/d6.c).

The program is embedded shallowly: the pip table, the strip table, the
`row_vec` routine and the `main` driver become Lean definitions over `Nat`
and `List Char`.  The iovec array built by `main` is modelled as a
`List (Option Iovec)` (entries start uninitialized, i.e. `none`), writes to
it are `List.set`, and the final `writev` is modelled as the concatenation
of the bytes of every entry in index order.
-/

set_option maxRecDepth 100000

namespace D6

/-- Pip configuration table, from `src/d6.c` (`pips`): for each face value
`v` in 1..6, the 9 bits at offset `v*9` mark which of the 9 grid positions
hold a pip. -/
def pips : Nat :=
  (0o020 <<< (1 * 9)) ||| (0o104 <<< (2 * 9)) ||| (0o124 <<< (3 * 9)) |||
  (0o505 <<< (4 * 9)) ||| (0o525 <<< (5 * 9)) ||| (0o555 <<< (6 * 9))

/-- Length of a row strip for one die, including the separator
(`dice_row_len` in the source). -/
def dice_row_len : Nat := 16

/-- The strip table (`dice_parts` in the source).  Entry 3 is `NULL`,
modelled as `none`. -/
def dice_parts : List (Option (List Char)) :=
  [some ("##############  ".toList),
   some ("##  ##########  ".toList),
   some ("######  ######  ".toList),
   none,
   some ("##########  ##  ".toList),
   some ("##  ######  ##  ".toList)]

/-- An `iovec`: a base buffer (possibly `NULL`, i.e. `none`) and a byte
count. -/
structure Iovec where
  base : Option (List Char)
  len : Nat
deriving DecidableEq

/-- `row_vec` from the source: for an odd row extract the 3-bit pip
pattern of that row of face `value` from the table and pick the matching
strip; even rows use strip 0 (the border). -/
def row_vec (row value : Nat) : Iovec :=
  let part : Nat := if row % 2 = 1 then (pips >>> (value * 9 + 3 * (row / 2))) &&& 7 else 0
  { base := dice_parts.getD part none, len := dice_row_len }

/-- The iovec that `main` installs at every line end: one newline byte. -/
def nlVec : Iovec := { base := some ['\n'], len := 1 }

/-- Index written for the line end of `row` (`row * (count+1) + count` in
the source). -/
def endIdx (count row : Nat) : Nat := row * (count + 1) + count

/-- Index written for die `d` at `row` (`row * (count+1) + dice_num` in
the source). -/
def dieIdx (count row d : Nat) : Nat := row * (count + 1) + d

/-- The "put line ends" loop of `main`: rows 6 down to 0, installing the
newline iovec at each row's last slot. -/
def putLineEnds (count : Nat) (vs : List (Option Iovec)) : List (Option Iovec) :=
  ((List.range 7).reverse).foldl
    (fun acc row => acc.set (endIdx count row) (some nlVec)) vs

/-- The inner row loop of the "prepare" loop of `main`: rows 6 down to 0,
installing `row_vec row value` at die `d`'s slot in each row. -/
def renderDie (count value d : Nat) (vs : List (Option Iovec)) : List (Option Iovec) :=
  ((List.range 7).reverse).foldl
    (fun acc row => acc.set (dieIdx count row d) (some (row_vec row value))) vs

/-- The outer "prepare" loop of `main`: for each die take
`dice_vals % 6 + 1` as the face value, divide `dice_vals` by 6, and render
the die's rows.  `fuel` is the number of dice still to render, `d` the
current die index. -/
def renderFrom (count : Nat) : Nat → Nat → Nat → List (Option Iovec) → List (Option Iovec)
  | 0, _, _, vs => vs
  | fuel + 1, e, d, vs =>
      renderFrom count fuel (e / 6) (d + 1) (renderDie count (e % 6 + 1) d vs)

/-- The bytes `writev` reads from one iovec: `len` bytes from `base`. -/
def iovBytes (iov : Iovec) : List Char := (iov.base.getD []).take iov.len

/-- Bytes contributed by one (possibly uninitialized) vector entry. -/
def chunkBytes (o : Option Iovec) : List Char :=
  match o with
  | some iov => iovBytes iov
  | none => []

/-- The fully prepared iovec array of `main` for a given count and entropy
block: `7 * (count + 1)` uninitialized slots, then the line-end loop, then
the per-die loop. -/
def buildVecs (count e : Nat) : List (Option Iovec) :=
  renderFrom count count e 0 (putLineEnds count (List.replicate (7 * (count + 1)) none))

/-- `writev(1, vecs, vec_count)`: concatenate the bytes of entries
`0 .. vec_count - 1` in order. -/
def writevOut (vs : List (Option Iovec)) : List Char :=
  (List.range vs.length).flatMap fun i => chunkBytes (vs.getD i none)

/-- Exit code and bytes written to stdout by one run. -/
structure ProcResult where
  exitCode : Nat
  output : List Char
deriving DecidableEq

/-- `main` from the source, as a function of the (already converted to
`unsigned int`) parsed count and the 64-bit entropy block read from
`/dev/random`: counts above 10 exit with status 1 and write nothing;
otherwise the iovec array is prepared and written out. -/
def d6_main (count e : Nat) : ProcResult :=
  if count > 10 then { exitCode := 1, output := [] }
  else { exitCode := 0, output := writevOut (buildVecs count e) }

/-- The sequence of face values produced by the "prepare" loop:
`dice_vals % 6 + 1`, then `dice_vals /= 6`, once per die. -/
def diceValsList : Nat → Nat → List Nat
  | _, 0 => []
  | e, c + 1 => (e % 6 + 1) :: diceValsList (e / 6) c

/-- Spec-side face formula (from the spec's words, for the C2 refinement):
the i-th face is the i-th base-6 digit of the entropy block, plus one. -/
def faceSpec (e i : Nat) : Nat := (e / 6 ^ i) % 6 + 1

/-- C's conversion of the (int-valued) `atoi` result to `unsigned int`:
reduction modulo 2^32. -/
def parsedCount (n : Int) : Nat := (n % (2 ^ 32 : Int)).toNat

/-- The bytes of the rendered strip for face `value` at `row`. -/
def stripBytes (row value : Nat) : List Char := iovBytes (row_vec row value)

/-- Number of blanked 2-character groups (columns 2-3, 6-7, 10-11) in a
strip. -/
def blankedGroups (s : List Char) : Nat :=
  ((List.range 3).filter
    (fun g => (s.getD (2 + 4 * g) '#' == ' ') && (s.getD (3 + 4 * g) '#' == ' '))).length

/-- Number of pips of face `v` lying in the row-third selected by row `r`:
the popcount of the 3-bit pattern extracted from the pip table. -/
def pipsInThird (v r : Nat) : Nat :=
  let p := (pips >>> (v * 9 + 3 * (r / 2))) &&& 7
  (p &&& 1) + ((p >>> 1) &&& 1) + ((p >>> 2) &&& 1)

/-- The content bytes of row `r` (all dice strips, no terminator). -/
def lineOf (count e r : Nat) : List Char :=
  (List.range count).flatMap fun d => iovBytes (row_vec r (faceSpec e d))

/-- The indices written by the line-end loop, in loop order. -/
def lineEndWrites (count : Nat) : List Nat :=
  ((List.range 7).reverse).map (endIdx count)

/-- The indices written by the per-die loop, in loop order. -/
def dieWrites (count : Nat) : List Nat :=
  (List.range count).flatMap fun d => ((List.range 7).reverse).map (fun row => dieIdx count row d)

/-! ### Helper lemmas -/

lemma d6_main_reject (count e : Nat) (h : 10 < count) :
    d6_main count e = { exitCode := 1, output := [] } := by
  simp [d6_main, h]

lemma faceSpec_ge_one (e i : Nat) : 1 ≤ faceSpec e i := by
  simp [faceSpec]

lemma faceSpec_le_six (e i : Nat) : faceSpec e i ≤ 6 := by
  have := Nat.mod_lt (e / 6 ^ i) (show 0 < 6 by omega)
  simp only [faceSpec]
  omega

lemma getD_set_self {α : Type} (l : List α) (i : Nat) (a d : α) (h : i < l.length) :
    (l.set i a).getD i d = a := by
  simp [List.getD_eq_getElem?_getD, List.getElem?_set, h]

lemma getD_set_ne {α : Type} (l : List α) (i j : Nat) (a d : α) (h : i ≠ j) :
    (l.set i a).getD j d = l.getD j d := by
  simp [List.getD_eq_getElem?_getD, List.getElem?_set, h]

lemma length_setFold {α : Type} (f : Nat → Nat) (g : Nat → α) (l : List Nat) (vs : List α) :
    (l.foldl (fun acc r => acc.set (f r) (g r)) vs).length = vs.length := by
  induction l generalizing vs with
  | nil => rfl
  | cons a l ih => rw [List.foldl_cons, ih, List.length_set]

lemma getD_setFold_notMem {α : Type} (f : Nat → Nat) (g : Nat → α) (l : List Nat)
    (vs : List α) (i : Nat) (d : α) (h : ∀ r ∈ l, f r ≠ i) :
    (l.foldl (fun acc r => acc.set (f r) (g r)) vs).getD i d = vs.getD i d := by
  induction l generalizing vs with
  | nil => rfl
  | cons a l ih =>
    rw [List.foldl_cons, ih _ (fun r hr => h r (List.mem_cons_of_mem _ hr)),
      getD_set_ne _ _ _ _ _ (h a (List.mem_cons_self a l))]

lemma getD_setFold_mem {α : Type} (f : Nat → Nat) (g : Nat → α) (l : List Nat)
    (vs : List α) (i : Nat) (d : α) (r₀ : Nat)
    (hnd : l.Nodup) (hr : r₀ ∈ l) (hf : f r₀ = i) (hi : i < vs.length)
    (huniq : ∀ r ∈ l, f r = i → r = r₀) :
    (l.foldl (fun acc r => acc.set (f r) (g r)) vs).getD i d = g r₀ := by
  induction l generalizing vs with
  | nil => cases hr
  | cons a l ih =>
    rw [List.foldl_cons]
    rcases List.mem_cons.mp hr with h0 | h0
    · subst h0
      have hnot : ∀ r ∈ l, f r ≠ i := by
        intro r hrl hri
        have hr0 := huniq r (List.mem_cons_of_mem _ hrl) hri
        subst hr0
        exact (List.nodup_cons.mp hnd).1 hrl
      rw [getD_setFold_notMem f g l _ _ _ hnot, ← hf,
        getD_set_self _ _ _ _ (hf ▸ hi)]
    · have hna : f a ≠ i := by
        intro hai
        have ha0 := huniq a (List.mem_cons_self a l) hai
        subst ha0
        exact (List.nodup_cons.mp hnd).1 h0
      exact ih (vs.set (f a) (g a)) (List.nodup_cons.mp hnd).2 h0
        (by rw [List.length_set]; exact hi)
        (fun r hrl hri => huniq r (List.mem_cons_of_mem _ hrl) hri)

lemma nodup_range7_reverse : ((List.range 7).reverse).Nodup :=
  List.nodup_reverse.mpr (List.nodup_range 7)

lemma mem_range7_reverse {r : Nat} : r ∈ (List.range 7).reverse ↔ r < 7 := by
  rw [List.mem_reverse, List.mem_range]

/-- Uniqueness of the `row * (count+1) + pos` decomposition. -/
lemma slot_unique {m r d r' d' : Nat} (hd : d < m) (hd' : d' < m)
    (h : r * m + d = r' * m + d') : r = r' ∧ d = d' := by
  have hmod : (r * m + d) % m = (r' * m + d') % m := by rw [h]
  rw [Nat.mul_comm r m, Nat.mul_comm r' m, Nat.mul_add_mod, Nat.mul_add_mod,
    Nat.mod_eq_of_lt hd, Nat.mod_eq_of_lt hd'] at hmod
  subst hmod
  have hm : 0 < m := by omega
  have hmul : r * m = r' * m := by omega
  exact ⟨Nat.eq_of_mul_eq_mul_right hm hmul, rfl⟩

/-- Two slots of the same die column in different rows coincide only for
equal rows. -/
lemma row_cancel {c r r' d : Nat} (h : r' * (c + 1) + d = r * (c + 1) + d) :
    r' = r := by
  have h1 : r' * (c + 1) = r * (c + 1) := by omega
  exact Nat.eq_of_mul_eq_mul_right (Nat.succ_pos c) h1

lemma dieIdx_lt {c r d : Nat} (hr : r < 7) (hd : d < c + 1) :
    dieIdx c r d < 7 * (c + 1) := by
  have h1 : dieIdx c r d < (r + 1) * (c + 1) := by
    unfold dieIdx
    have : (r + 1) * (c + 1) = r * (c + 1) + (c + 1) := by ring
    omega
  have h2 : (r + 1) * (c + 1) ≤ 7 * (c + 1) :=
    Nat.mul_le_mul_right _ (by omega)
  omega

lemma endIdx_eq_dieIdx (c r : Nat) : endIdx c r = dieIdx c r c := rfl

lemma putLineEnds_length (c : Nat) (vs : List (Option Iovec)) :
    (putLineEnds c vs).length = vs.length :=
  length_setFold _ _ _ _

lemma putLineEnds_getD_end (c : Nat) (vs : List (Option Iovec)) (r : Nat)
    (hr : r < 7) (h : endIdx c r < vs.length) :
    (putLineEnds c vs).getD (endIdx c r) none = some nlVec := by
  refine getD_setFold_mem _ _ _ _ _ _ r nodup_range7_reverse
    (mem_range7_reverse.mpr hr) rfl h ?_
  intro r' _ hr'
  simp only [endIdx] at hr'
  exact row_cancel hr'

lemma putLineEnds_getD_other (c : Nat) (vs : List (Option Iovec)) (i : Nat)
    (h : ∀ r, r < 7 → endIdx c r ≠ i) :
    (putLineEnds c vs).getD i none = vs.getD i none :=
  getD_setFold_notMem _ _ _ _ _ _ (fun r hr => h r (mem_range7_reverse.mp hr))

lemma renderDie_length (c v d : Nat) (vs : List (Option Iovec)) :
    (renderDie c v d vs).length = vs.length :=
  length_setFold _ _ _ _

lemma renderDie_getD_die (c v d : Nat) (vs : List (Option Iovec)) (r : Nat)
    (hr : r < 7) (h : dieIdx c r d < vs.length) :
    (renderDie c v d vs).getD (dieIdx c r d) none = some (row_vec r v) := by
  refine getD_setFold_mem _ _ _ _ _ _ r nodup_range7_reverse
    (mem_range7_reverse.mpr hr) rfl h ?_
  intro r' _ hr'
  simp only [dieIdx] at hr'
  exact row_cancel hr'

lemma renderDie_getD_other (c v d : Nat) (vs : List (Option Iovec)) (i : Nat)
    (h : ∀ r, r < 7 → dieIdx c r d ≠ i) :
    (renderDie c v d vs).getD i none = vs.getD i none :=
  getD_setFold_notMem _ _ _ _ _ _ (fun r hr => h r (mem_range7_reverse.mp hr))

lemma renderFrom_length (c : Nat) :
    ∀ fuel e dn vs, (renderFrom c fuel e dn vs).length = vs.length := by
  intro fuel
  induction fuel with
  | zero => intro e dn vs; rfl
  | succ n ih =>
    intro e dn vs
    rw [renderFrom, ih, renderDie_length]

lemma renderFrom_getD_untouched (c : Nat) :
    ∀ fuel e dn vs i,
      (∀ r j, r < 7 → dn ≤ j → j < dn + fuel → dieIdx c r j ≠ i) →
      (renderFrom c fuel e dn vs).getD i none = vs.getD i none := by
  intro fuel
  induction fuel with
  | zero => intro e dn vs i _; rfl
  | succ n ih =>
    intro e dn vs i h
    rw [renderFrom,
      ih _ _ _ _ (fun r j hr hj1 hj2 => h r j hr (by omega) (by omega)),
      renderDie_getD_other _ _ _ _ _ (fun r hr => h r dn hr (by omega) (by omega))]

lemma renderFrom_getD_die (c : Nat) :
    ∀ fuel e dn vs d r, r < 7 → dn ≤ d → d < dn + fuel → dn + fuel ≤ c →
      vs.length = 7 * (c + 1) →
      (renderFrom c fuel e dn vs).getD (dieIdx c r d) none =
        some (row_vec r ((e / 6 ^ (d - dn)) % 6 + 1)) := by
  intro fuel
  induction fuel with
  | zero => intro e dn vs d r _ h1 h2 _ _; omega
  | succ n ih =>
    intro e dn vs d r hr hd1 hd2 hc hvs
    rw [renderFrom]
    by_cases hd : d = dn
    · subst hd
      rw [renderFrom_getD_untouched]
      · rw [renderDie_getD_die c _ d _ r hr (by rw [hvs]; exact dieIdx_lt hr (by omega))]
        simp
      · intro r' j hr' hj1 hj2 hne
        have := slot_unique (m := c + 1) (show j < c + 1 by omega)
          (show d < c + 1 by omega) hne
        omega
    · have heq := ih (e / 6) (dn + 1) (renderDie c (e % 6 + 1) dn vs) d r hr
        (by omega) (by omega) (by omega) (by rw [renderDie_length]; exact hvs)
      rw [heq]
      have h6 : (6 : Nat) * 6 ^ (d - (dn + 1)) = 6 ^ (d - dn) := by
        rw [← pow_succ']
        congr 1
        omega
      rw [Nat.div_div_eq_div_mul, h6]

lemma buildVecs_length (c e : Nat) : (buildVecs c e).length = 7 * (c + 1) := by
  unfold buildVecs
  rw [renderFrom_length, putLineEnds_length, List.length_replicate]

lemma buildVecs_getD_end (c e r : Nat) (hr : r < 7) :
    (buildVecs c e).getD (endIdx c r) none = some nlVec := by
  unfold buildVecs
  rw [renderFrom_getD_untouched]
  · exact putLineEnds_getD_end c _ r hr
      (by rw [List.length_replicate, endIdx_eq_dieIdx]
          exact dieIdx_lt hr (Nat.lt_succ_self c))
  · intro r' j hr' hj1 hj2 hne
    rw [endIdx_eq_dieIdx] at hne
    have := slot_unique (m := c + 1) (show j < c + 1 by omega)
      (Nat.lt_succ_self c) hne
    omega

lemma buildVecs_getD_die (c e d r : Nat) (hr : r < 7) (hd : d < c) :
    (buildVecs c e).getD (dieIdx c r d) none = some (row_vec r (faceSpec e d)) := by
  unfold buildVecs
  rw [renderFrom_getD_die c c e 0 _ d r hr (Nat.zero_le _) (by omega) (by omega)
    (by rw [putLineEnds_length, List.length_replicate])]
  simp [faceSpec]

lemma range_mul_flatMap (k n : Nat) :
    List.range (k * n) = (List.range k).flatMap (fun r => (List.range n).map (fun j => r * n + j)) := by
  induction k with
  | zero => simp
  | succ k ih =>
    rw [List.range_succ, List.flatMap_append, ← ih, Nat.succ_mul, List.range_add]
    simp

lemma flatMap_congr {α β : Type} (l : List α) (f g : α → List β)
    (h : ∀ a ∈ l, f a = g a) : l.flatMap f = l.flatMap g := by
  induction l with
  | nil => rfl
  | cons a l ih =>
    rw [List.flatMap_cons, List.flatMap_cons, h a (List.mem_cons_self a l),
      ih (fun x hx => h x (List.mem_cons_of_mem _ hx))]

lemma writevOut_buildVecs (c e : Nat) :
    writevOut (buildVecs c e) =
      (List.range 7).flatMap (fun r => lineOf c e r ++ ['\n']) := by
  unfold writevOut
  rw [buildVecs_length, range_mul_flatMap 7 (c + 1), List.flatMap_assoc]
  refine flatMap_congr _ _ _ ?_
  intro r hrm
  have hr : r < 7 := List.mem_range.mp hrm
  rw [List.flatMap_map]
  have hsing : (List.range (c + 1)) = List.range c ++ [c] := List.range_succ c
  rw [hsing, List.flatMap_append]
  congr 1
  · unfold lineOf
    refine flatMap_congr _ _ _ ?_
    intro d hdm
    have hd : d < c := List.mem_range.mp hdm
    show chunkBytes ((buildVecs c e).getD (dieIdx c r d) none) = _
    rw [buildVecs_getD_die c e d r hr hd]
    rfl
  · show chunkBytes ((buildVecs c e).getD (endIdx c r) none) ++ [] = ['\n']
    rw [buildVecs_getD_end c e r hr]
    rfl

lemma strip_len_count (r v : Nat) (hr : r < 7) (hv1 : 1 ≤ v) (hv2 : v ≤ 6) :
    (iovBytes (row_vec r v)).length = 16 ∧ (iovBytes (row_vec r v)).count '\n' = 0 := by
  interval_cases r <;> interval_cases v <;> decide

lemma flatMap_length_const {α : Type} (l : List α) (f : α → List Char) (k : Nat)
    (h : ∀ a ∈ l, (f a).length = k) : (l.flatMap f).length = l.length * k := by
  induction l with
  | nil => simp
  | cons a l ih =>
    rw [List.flatMap_cons, List.length_append, h a (List.mem_cons_self a l),
      ih (fun x hx => h x (List.mem_cons_of_mem _ hx)), List.length_cons,
      Nat.succ_mul, Nat.add_comm]

lemma flatMap_count_const {α : Type} (l : List α) (f : α → List Char) (x : Char) (k : Nat)
    (h : ∀ a ∈ l, (f a).count x = k) : (l.flatMap f).count x = l.length * k := by
  induction l with
  | nil => simp
  | cons a l ih =>
    rw [List.flatMap_cons, List.count_append, h a (List.mem_cons_self a l),
      ih (fun x hx => h x (List.mem_cons_of_mem _ hx)), List.length_cons,
      Nat.succ_mul, Nat.add_comm]

lemma lineOf_length (c e r : Nat) (hr : r < 7) :
    (lineOf c e r).length = 16 * c := by
  unfold lineOf
  rw [flatMap_length_const _ _ 16, List.length_range, Nat.mul_comm]
  intro d _
  exact (strip_len_count r _ hr (faceSpec_ge_one e d) (faceSpec_le_six e d)).1

lemma lineOf_count (c e r : Nat) (hr : r < 7) :
    (lineOf c e r).count '\n' = 0 := by
  unfold lineOf
  rw [flatMap_count_const _ _ _ 0, Nat.mul_zero]
  intro d _
  exact (strip_len_count r _ hr (faceSpec_ge_one e d) (faceSpec_le_six e d)).2

lemma diceValsList_getD (c : Nat) :
    ∀ e i, i < c → (diceValsList e c).getD i 0 = faceSpec e i := by
  induction c with
  | zero => intro e i hi; omega
  | succ c ih =>
    intro e i hi
    cases i with
    | zero =>
      simp [diceValsList, faceSpec]
    | succ i =>
      have h6 : (6 : Nat) * 6 ^ i = 6 ^ (i + 1) := by
        rw [pow_succ]; ring
      simp only [diceValsList, List.getD_cons_succ]
      rw [ih (e / 6) i (by omega)]
      simp only [faceSpec]
      rw [Nat.div_div_eq_div_mul, h6]

end D6

/-! ### Claims -/

namespace D6

/-- Claim C1: for every dice count greater than 10, the program exits with
status 1 and produces zero bytes of output. -/
theorem claim_C1 (count e : Nat) (h : 10 < count) :
    (d6_main count e).exitCode = 1 ∧ (d6_main count e).output = [] := by
  rw [d6_main_reject count e h]
  exact ⟨rfl, rfl⟩

theorem claim_C1_witness :
    10 < 11 ∧ (d6_main 11 0).exitCode = 1 ∧ (d6_main 11 0).output = [] :=
  ⟨by decide, claim_C1 11 0 (by decide)⟩

/-- Claim C2: for every 64-bit entropy block `e` and count `c` in [1,10],
the i-th face value produced by the derivation loop equals
`(e / 6^i) % 6 + 1` (positional base-6 decomposition plus one), and lies
in [1,6]. -/
theorem claim_C2 (e c i : Nat) (he : e < 2 ^ 64) (hc1 : 1 ≤ c) (hc2 : c ≤ 10)
    (hi : i < c) :
    (diceValsList e c).getD i 0 = faceSpec e i ∧
    1 ≤ (diceValsList e c).getD i 0 ∧ (diceValsList e c).getD i 0 ≤ 6 := by
  have h := diceValsList_getD c e i hi
  exact ⟨h, by rw [h]; exact faceSpec_ge_one e i, by rw [h]; exact faceSpec_le_six e i⟩

theorem claim_C2_witness :
    (7 : Nat) < 2 ^ 64 ∧ 1 ≤ 2 ∧ 2 ≤ 10 ∧ 1 < 2 ∧
    ((diceValsList 7 2).getD 1 0 = faceSpec 7 1 ∧
     1 ≤ (diceValsList 7 2).getD 1 0 ∧ (diceValsList 7 2).getD 1 0 ≤ 6) :=
  ⟨by decide, by decide, by decide, by decide,
   claim_C2 7 2 1 (by decide) (by decide) (by decide) (by decide)⟩

/-- Claim C3 counterexample: at count 1 with entropy 0 the output is 119
bytes, not `16*1*7 = 112`, and the first line's terminator is byte 16, so
the line has length 17 including its terminator, not `16*1 = 16`: the
scatter/gather variant appends the newline after the full strip instead of
overwriting its tail. -/
theorem claim_C3_cex :
    (d6_main 1 0).output.length = 119 ∧ (119 : Nat) ≠ 16 * 1 * 7 ∧
    (d6_main 1 0).output.getD 16 ' ' = '\n' ∧ (d6_main 1 0).output.getD 15 ' ' ≠ '\n' := by
  decide

/-- Claim C3 (amended): for counts in 1..10 the output is 7 lines, each
line being the concatenation of the dice strips (16 bytes per die)
followed by one newline byte; the output has `16*c*7 + 7` bytes in total,
contains exactly 7 newline characters, and each line has length
`16*c + 1` including its terminator (its content is newline-free). -/
theorem claim_C3 (e c : Nat) (hc1 : 1 ≤ c) (hc2 : c ≤ 10) :
    (d6_main c e).output = (List.range 7).flatMap (fun r => lineOf c e r ++ ['\n']) ∧
    (d6_main c e).output.length = 16 * c * 7 + 7 ∧
    (d6_main c e).output.count '\n' = 7 ∧
    ∀ r, r < 7 → (lineOf c e r ++ ['\n']).length = 16 * c + 1 ∧
      (lineOf c e r).count '\n' = 0 := by
  have hout : (d6_main c e).output = writevOut (buildVecs c e) := by
    simp [d6_main, Nat.not_lt.mpr hc2]
  have hline : ∀ r ∈ List.range 7, (lineOf c e r ++ ['\n']).length = 16 * c + 1 := by
    intro r hrm
    rw [List.length_append, lineOf_length c e r (List.mem_range.mp hrm)]
    simp
  have hcnt : ∀ r ∈ List.range 7, (lineOf c e r ++ ['\n']).count '\n' = 1 := by
    intro r hrm
    rw [List.count_append, lineOf_count c e r (List.mem_range.mp hrm)]
    simp
  rw [hout, writevOut_buildVecs]
  refine ⟨rfl, ?_, ?_, ?_⟩
  · rw [flatMap_length_const _ _ (16 * c + 1) hline, List.length_range]
    omega
  · rw [flatMap_count_const _ _ _ 1 hcnt, List.length_range]
  · intro r hr
    exact ⟨by rw [List.length_append, lineOf_length c e r hr]; simp,
      lineOf_count c e r hr⟩

theorem claim_C3_witness :
    1 ≤ 1 ∧ (1 : Nat) ≤ 10 ∧
    ((d6_main 1 0).output = (List.range 7).flatMap (fun r => lineOf 1 0 r ++ ['\n']) ∧
     (d6_main 1 0).output.length = 16 * 1 * 7 + 7 ∧
     (d6_main 1 0).output.count '\n' = 7 ∧
     ∀ r, r < 7 → (lineOf 1 0 r ++ ['\n']).length = 16 * 1 + 1 ∧
       (lineOf 1 0 r).count '\n' = 0) :=
  ⟨by decide, by decide, claim_C3 0 1 (by decide) (by decide)⟩

/-- Claim C4: for every face value in 1..6 and row in 0..6 the renderer
returns a strip of exactly 16 characters (both the buffer and the declared
iovec length), and for even rows the strip is the fixed border entry 0 of
the table, independently of the face value. -/
theorem claim_C4 (v r : Nat) (hv1 : 1 ≤ v) (hv2 : v ≤ 6) (hr : r < 7) :
    (stripBytes r v).length = 16 ∧ (row_vec r v).len = 16 ∧
    (r % 2 = 0 → (row_vec r v).base = dice_parts.getD 0 none) := by
  interval_cases v <;> interval_cases r <;> decide

theorem claim_C4_witness :
    1 ≤ 6 ∧ (6 : Nat) ≤ 6 ∧ 2 < 7 ∧
    ((stripBytes 2 6).length = 16 ∧ (row_vec 2 6).len = 16 ∧
     (2 % 2 = 0 → (row_vec 2 6).base = dice_parts.getD 0 none)) :=
  ⟨by decide, by decide, by decide, claim_C4 6 2 (by decide) (by decide) (by decide)⟩

/-- Claim C5: for every face value in 1..6 and every odd row, the number of
blanked 2-character groups in the rendered strip equals the number of pips
of that face in that row-third of the pip grid, and the blanked groups of
the three odd rows sum to the face value. -/
theorem claim_C5 (v : Nat) (hv1 : 1 ≤ v) (hv2 : v ≤ 6) :
    (∀ r ∈ ([1, 3, 5] : List Nat), blankedGroups (stripBytes r v) = pipsInThird v r) ∧
    blankedGroups (stripBytes 1 v) + blankedGroups (stripBytes 3 v) +
      blankedGroups (stripBytes 5 v) = v := by
  interval_cases v <;> decide

theorem claim_C5_witness :
    1 ≤ 5 ∧ (5 : Nat) ≤ 6 ∧
    ((∀ r ∈ ([1, 3, 5] : List Nat), blankedGroups (stripBytes r 5) = pipsInThird 5 r) ∧
     blankedGroups (stripBytes 1 5) + blankedGroups (stripBytes 3 5) +
       blankedGroups (stripBytes 5 5) = 5) :=
  ⟨by decide, by decide, claim_C5 5 (by decide) (by decide)⟩

/-- Claim C6: for every face value in 1..6 and odd row, the extracted
3-bit pip pattern is one of 0, 1, 2, 4, 5 (never 3, 6 or 7), stays below
the 6-entry strip table, and never selects the `NULL` entry. -/
theorem claim_C6 (v : Nat) (hv1 : 1 ≤ v) (hv2 : v ≤ 6) :
    ∀ r ∈ ([1, 3, 5] : List Nat),
      ((pips >>> (v * 9 + 3 * (r / 2))) &&& 7) ∈ ([0, 1, 2, 4, 5] : List Nat) ∧
      (pips >>> (v * 9 + 3 * (r / 2))) &&& 7 < 6 ∧
      dice_parts.getD ((pips >>> (v * 9 + 3 * (r / 2))) &&& 7) none ≠ none := by
  interval_cases v <;> decide

theorem claim_C6_witness :
    1 ≤ 4 ∧ (4 : Nat) ≤ 6 ∧
    (∀ r ∈ ([1, 3, 5] : List Nat),
      ((pips >>> (4 * 9 + 3 * (r / 2))) &&& 7) ∈ ([0, 1, 2, 4, 5] : List Nat) ∧
      (pips >>> (4 * 9 + 3 * (r / 2))) &&& 7 < 6 ∧
      dice_parts.getD ((pips >>> (4 * 9 + 3 * (r / 2))) &&& 7) none ≠ none) :=
  ⟨by decide, by decide, claim_C6 4 (by decide) (by decide)⟩

/-- Claim C7: a parsed count of 0 is accepted (exit status 0) and the
whole output is exactly 7 newline characters. -/
theorem claim_C7 (e : Nat) :
    (d6_main 0 e).exitCode = 0 ∧ (d6_main 0 e).output = List.replicate 7 '\n' :=
  ⟨rfl, rfl⟩

/-- Claim C8: for a fixed entropy block and count, two runs produce the
same face values and byte-identical output — the pipeline is a pure
function of the entropy block and the count. -/
theorem claim_C8 (e₁ e₂ c : Nat) (he : e₁ < 2 ^ 64) (hc : c ≤ 10) (heq : e₁ = e₂) :
    diceValsList e₁ c = diceValsList e₂ c ∧ d6_main c e₁ = d6_main c e₂ := by
  subst heq
  exact ⟨rfl, rfl⟩

theorem claim_C8_witness :
    (5 : Nat) < 2 ^ 64 ∧ (3 : Nat) ≤ 10 ∧ (5 : Nat) = 5 ∧
    (diceValsList 5 3 = diceValsList 5 3 ∧ d6_main 3 5 = d6_main 3 5) :=
  ⟨by decide, by decide, rfl, claim_C8 5 5 3 (by decide) (by decide) rfl⟩

/-- Claim C9: for every count in 0..10 the multiset of indices written by
the line-end loop and the per-die loop is exactly the range of the
`7 * (count + 1)` vector slots, each written exactly once, and every
entry of the prepared vector is initialized before the gathered write. -/
theorem claim_C9 (c : Nat) (hc : c ≤ 10) :
    List.Perm (lineEndWrites c ++ dieWrites c) (List.range (7 * (c + 1))) ∧
    ∀ e i, i < 7 * (c + 1) → (buildVecs c e).getD i none ≠ none := by
  constructor
  · interval_cases c <;> decide
  · intro e i hi
    have hj : i % (c + 1) < c + 1 := Nat.mod_lt _ (Nat.succ_pos c)
    have hr : i / (c + 1) < 7 := Nat.div_lt_of_lt_mul (by omega)
    have hieq : i = dieIdx c (i / (c + 1)) (i % (c + 1)) := by
      unfold dieIdx
      rw [Nat.mul_comm]
      exact (Nat.div_add_mod i (c + 1)).symm
    rcases (show i % (c + 1) < c ∨ i % (c + 1) = c by omega) with hlt | heq
    · rw [hieq, buildVecs_getD_die c e _ _ hr hlt]
      simp
    · rw [hieq, heq, ← endIdx_eq_dieIdx, buildVecs_getD_end c e _ hr]
      simp

theorem claim_C9_witness :
    (10 : Nat) ≤ 10 ∧
    (List.Perm (lineEndWrites 10 ++ dieWrites 10) (List.range (7 * (10 + 1))) ∧
     ∀ e i, i < 7 * (10 + 1) → (buildVecs 10 e).getD i none ≠ none) :=
  ⟨by decide, claim_C9 10 (by decide)⟩

/-- Claim C10: every negative parsed CLI argument (within `int` range)
converts to an unsigned count greater than 10, so the program takes the
same rejection path: exit status 1 and no output. -/
theorem claim_C10 (n : Int) (e : Nat) (h1 : -(2 ^ 31) ≤ n) (h2 : n < 0) :
    10 < parsedCount n ∧
    (d6_main (parsedCount n) e).exitCode = 1 ∧ (d6_main (parsedCount n) e).output = [] := by
  have hgt : 10 < parsedCount n := by
    simp only [parsedCount]
    omega
  refine ⟨hgt, ?_, ?_⟩ <;> rw [d6_main_reject _ e hgt]

theorem claim_C10_witness :
    -(2 ^ 31) ≤ (-1 : Int) ∧ (-1 : Int) < 0 ∧
    (10 < parsedCount (-1) ∧
     (d6_main (parsedCount (-1)) 0).exitCode = 1 ∧
     (d6_main (parsedCount (-1)) 0).output = []) :=
  ⟨by decide, by decide, claim_C10 (-1) 0 (by decide) (by decide)⟩

end D6
